import Mathlib

/-!
Verification of the bridge health-checking engine of the obfs4-checker crate
(`src/crates/obfs4-checker/src/checking.rs`).

The probe executor `test_bridges`, the recovery prober loop
`check_failed_bridges_task` and the liveness watcher loop
`detect_bridges_going_down` are embedded as executable Lean functions over an
explicit environment of external outcomes (parsing, config building, handshake
results, the wall clock, and task panics), and the two cooperating loops are
additionally given a set-level transition system for their shared-state
invariants.
-/

/-- The maximum number of open connections to relays at any given time
(`const MAX_CONNECTIONS: usize = 10` in checking.rs). -/
def MAX_CONNECTIONS : Nat := 10

/-- Modelled from the spec: the `BridgeResult` struct is declared in the
obfs4-checker crate outside the provided sources; its fields are fully
determined by the construction site in `test_bridges`
(`BridgeResult { functional: chan.is_some(), last_tested: time, error }`) and
by the spec's data model: functional flag, UTC timestamp of the probe, and an
optional error string.  Timestamps are modelled as natural numbers. -/
structure BridgeResult where
  functional : Bool
  last_tested : Nat
  error : Option String
deriving DecidableEq

/-- The tuple produced by one spawned probe task in `test_bridges`:
`(rawbridgeline, Option<Channel>, current_time, Option<String>)`.
Channels are modelled by numeric identifiers. -/
structure TaskOut where
  line : String
  chan : Option Nat
  time : Nat
  error : Option String
deriving DecidableEq

/-- The environment of external outcomes a `test_bridges` call observes:
`parseErr line` is `some msg` when `rawbridgeline.parse()` fails with report
string `msg` and `none` when parsing yields a config builder; `buildOk line`
says whether `bridge.build()` succeeds on the parsed builder; `probeRes i line`
is the outcome of the `is_bridge_online` handshake performed by the task
spawned for the i-th position of the input slice (a channel id, or the report
string of the `tor_chanmgr` error); `clock i` is the `Utc::now()` sample taken
at the start of that task; `panics i` says whether that spawned task panics
(its `JoinHandle` then yields a `JoinError`). -/
structure ProbeEnv where
  parseErr : String → Option String
  buildOk : String → Bool
  probeRes : Nat → String → Except String Nat
  clock : Nat → Nat
  panics : Nat → Bool

/-- Result maps `HashMap<String, BridgeResult>` are modelled as functions. -/
abbrev RMap := String → Option BridgeResult

/-- Channel maps `HashMap<String, Channel>` are modelled as functions. -/
abbrev CMap := String → Option Nat

/-- `HashMap::insert`: point update of a map. -/
def mupd {β : Type} (m : String → Option β) (k : String) (v : β) :
    String → Option β :=
  fun x => if x = k then some v else m x

/-- Left-to-right removal of every (non-overlapping) occurrence of the
seven-character pattern `"error: "`, on the character list of a string.
This models Rust's `str::replace("error: ", "")`.  The first argument is
recursion fuel, instantiated with the list's length. -/
def stripErrGo : Nat → List Char → List Char
  | 0, l => l
  | _ + 1, [] => []
  | fuel + 1, c :: rest =>
    if (c :: rest).take 7 = ("error: ".toList) then
      stripErrGo fuel ((c :: rest).drop 7)
    else
      c :: stripErrGo fuel rest

/-- `er.report().to_string().replace("error: ", "")` from the handshake-error
arm of `test_bridges`. -/
def stripError (s : String) : String := ⟨stripErrGo s.toList.length s.toList⟩

/-- The outcome of the task spawned for the line at global position `i` of the
input slice, after its `JoinHandle` has been awaited: `none` when the join
produced a `JoinError` (the task panicked), otherwise the task's tuple.
A parse failure spawns the trivial task that records the verbatim
`e.report().to_string()`; a parsed line's task samples the clock, performs the
handshake and either returns the channel or the stripped error report. -/
def runTask (env : ProbeEnv) (i : Nat) (line : String) : Option TaskOut :=
  match env.parseErr line with
  | some e => some ⟨line, none, env.clock i, some e⟩
  | none =>
    match env.panics i with
    | true => none
    | false =>
      match env.probeRes i line with
      | Except.ok ch => some ⟨line, some ch, env.clock i, none⟩
      | Except.error m => some ⟨line, none, env.clock i, some (stripError m)⟩

/-- `futures::future::join_all(tasks).await` followed by `.flatten()` for one
batch starting at global position `i`: the tuples of the non-panicking tasks,
in spawn order. -/
def batchOuts (env : ProbeEnv) : Nat → List String → List TaskOut
  | _, [] => []
  | i, l :: rest =>
    match runTask env i l with
    | some o => o :: batchOuts env (i + 1) rest
    | none => batchOuts env (i + 1) rest

/-- Whether collecting the task vector for a batch survives the
`bridge.build().unwrap()` in the map closure: every line of the batch either
fails to parse (taking the other arm) or builds successfully. -/
def batchBuildOk (env : ProbeEnv) (batch : List String) : Bool :=
  batch.all fun l => (env.parseErr l).isSome || env.buildOk l

/-- The result-recording loop at the bottom of `test_bridges`: for every tuple
`(bridgeline, chan, time, error)`, insert
`BridgeResult { functional: chan.is_some(), last_tested: time, error }` into
`results`, and insert the channel into `channels` when present. -/
def recordOuts (outs : List TaskOut) (rc : RMap × CMap) : RMap × CMap :=
  outs.foldl
    (fun rc o =>
      (mupd rc.1 o.line ⟨o.chan.isSome, o.time, o.error⟩,
       match o.chan with
       | some ch => mupd rc.2 o.line ch
       | none => rc.2))
    rc

/-- The successive slices
`bridge_lines[counter..(counter + MAX_CONNECTIONS).min(bridge_lines.len())]`
taken by the while loop of `test_bridges`, with the list's length as
recursion fuel. -/
def probeBatchesAux : Nat → List String → List (List String)
  | 0, _ => []
  | _ + 1, [] => []
  | fuel + 1, l :: rest =>
    (l :: rest).take MAX_CONNECTIONS ::
      probeBatchesAux fuel ((l :: rest).drop MAX_CONNECTIONS)

/-- The batches of at most `MAX_CONNECTIONS` lines processed by the while loop
of `test_bridges`, in order. -/
def probeBatches (bridge_lines : List String) : List (List String) :=
  probeBatchesAux bridge_lines.length bridge_lines

/-- One while-loop iteration of `test_bridges` per batch: spawn the batch's
tasks (panicking with `none` if some parsed line fails `build().unwrap()`),
await them all, record the surviving tuples, then move to the next batch.
`off` is the global position of the batch's first line. -/
def runBatches (env : ProbeEnv) :
    List (List String) → Nat → RMap → CMap → Option (RMap × CMap)
  | [], _, r, c => some (r, c)
  | b :: bs, off, r, c =>
    match batchBuildOk env b with
    | false => none
    | true =>
      runBatches env bs (off + b.length)
        (recordOuts (batchOuts env off b) (r, c)).1
        (recordOuts (batchOuts env off b) (r, c)).2

/-- `test_bridges(bridge_lines, common_tor_client)`: probes the lines batch by
batch and returns `(results, channels)`; `none` models the call panicking on a
`build().unwrap()` failure. -/
def test_bridges (env : ProbeEnv) (bridge_lines : List String) :
    Option (RMap × CMap) :=
  runBatches env (probeBatches bridge_lines) 0 (fun _ => none) (fun _ => none)

/-- The entry stored in the returned results map for a given key (or `none`
when the whole call aborted or the key is absent). -/
def tbResult (env : ProbeEnv) (bridge_lines : List String) (key : String) :
    Option BridgeResult :=
  match test_bridges env bridge_lines with
  | some (r, _) => r key
  | none => none

/-- The entry stored in the returned channels map for a given key. -/
def tbChan (env : ProbeEnv) (bridge_lines : List String) (key : String) :
    Option Nat :=
  match test_bridges env bridge_lines with
  | some (_, c) => c key
  | none => none

/-- `get_failed_bridges(bridge_lines, channels)`: the lines with no channel. -/
def get_failed_bridges (bridge_lines : List String) (channels : CMap) :
    List String :=
  bridge_lines.filter fun l => !(channels l).isSome

/-- Environment witnessing C1's failure on duplicate lines: the probe spawned
for position 0 opens channel 7, the probe spawned for position 1 fails. -/
def envC1 : ProbeEnv where
  parseErr := fun _ => none
  buildOk := fun _ => true
  probeRes := fun i _ => if i = 0 then Except.ok 7 else Except.error "error: x"
  clock := fun i => i
  panics := fun _ => false

/-- Environment in which every spawned probe task panics. -/
def envC3 : ProbeEnv where
  parseErr := fun _ => none
  buildOk := fun _ => true
  probeRes := fun _ _ => Except.error "e"
  clock := fun i => i
  panics := fun _ => true

/-- Environment whose parse step fails with a report string that itself
carries the library's `"error: "` prefix. -/
def envC4 : ProbeEnv where
  parseErr := fun _ => some "error: bad"
  buildOk := fun _ => true
  probeRes := fun _ _ => Except.error "e"
  clock := fun i => i
  panics := fun _ => false

/-- Concrete input of eleven distinct lines, split by the executor into a
full batch of ten and a remainder batch of one. -/
def linesC5 : List String :=
  ["a", "b", "c", "d", "e", "f", "g", "h", "i", "j", "k"]

/-- The intake-merge step of `check_failed_bridges_task` (lines 185-187):
`set1 = HashSet(new_failures); set2 = HashSet(failed_bridges);
failed_bridges = set1.union(&set2).cloned().collect()`.  Hash-set union
produces each member exactly once (in an unspecified order, modelled here by
`dedup` of the concatenation). -/
def merge_new_bridges (new_failures failed_bridges : List String) :
    List String :=
  (new_failures ++ failed_bridges).dedup

/-- The per-iteration partition loop of `detect_bridges_going_down`
(lines 208-214): each `(bridgeline, channel)` entry goes to the
`failed_bridges` list when `channel.is_closing()` and is retained in
`new_channels` otherwise.  A channel is modelled by its observed
`is_closing()` value. -/
def detect_partition :
    List (String × Bool) → List String × List (String × Bool)
  | [] => ([], [])
  | (l, true) :: rest =>
    (l :: (detect_partition rest).1, (detect_partition rest).2)
  | (l, false) :: rest =>
    ((detect_partition rest).1, (l, false) :: (detect_partition rest).2)

/-- The messages sent on the once-online-now-failed queue by a single
iteration of `detect_bridges_going_down`: exactly the one unconditional
`once_online_bridges.send(failed_bridges)` of line 216. -/
def once_online_send (channels : List (String × Bool)) :
    List (List String) :=
  [(detect_partition channels).1]

/-- The drain loop of `check_failed_bridges_task` (lines 170-177) over the
queued batches of the once-online-now-failed queue: a non-empty batch is
spliced to the front of the failed list and draining continues; an empty
batch breaks out of the loop (leaving the rest of the queue), and an
exhausted queue ends the loop only by letting the 1-second `RECEIVE_TIMEOUT`
elapse — the Boolean of the result records whether the loop had to wait for
that timeout. -/
def drainOnce :
    List (List String) → List String → List String × List (List String) × Bool
  | [], failed => (failed, [], true)
  | [] :: rest, failed => (failed, rest, false)
  | (x :: b) :: rest, failed => drainOnce rest ((x :: b) ++ failed)

/-- Replace an environment's `Utc::now()` sampler. -/
def withClock (e : ProbeEnv) (c : Nat → Nat) : ProbeEnv :=
  { e with clock := c }

/-- Successive `test_bridges` calls made by the loop of
`check_failed_bridges_task`: round after round, each call finishes (all its
tasks are awaited by `join_all`) before the next begins, so the clock samples
of round `n + 1` are taken at later instants than every sample of round `n`.
This is modelled by giving the tasks of successive rounds successive sample
indices into one global clock `gc`; `off` is the index after all previous
rounds.  Each round carries its own parse/probe/panic outcomes and its list
of probed lines. -/
def runRounds (gc : Nat → Nat) :
    List (ProbeEnv × List String) → Nat → List (Option (RMap × CMap))
  | [], _ => []
  | (e, ls) :: rest, off =>
    test_bridges (withClock e fun i => gc (off + i)) ls ::
      runRounds gc rest (off + ls.length)

/-- The `BridgeResult` published for `line` by the `k`-th round (the entry of
the `newresults` map sent on the updates channel — absent keys, aborted
rounds and out-of-range rounds give `none`). -/
def publishedAt (gc : Nat → Nat) (rounds : List (ProbeEnv × List String))
    (off k : Nat) (line : String) : Option BridgeResult :=
  match (runRounds gc rounds off)[k]? with
  | some (some (r, _)) => r line
  | _ => none

/-- Total number of clock samples of the first `n` rounds. -/
def sumLenTo : List (ProbeEnv × List String) → Nat → Nat
  | _, 0 => 0
  | [], _ + 1 => 0
  | p :: rest, n + 1 => p.2.length + sumLenTo rest n

/-- Environment for the C8 witness: every probe fails, nothing panics. -/
def envC8 : ProbeEnv where
  parseErr := fun _ => none
  buildOk := fun _ => true
  probeRes := fun _ _ => Except.error "e"
  clock := fun i => i
  panics := fun _ => false

/-- The joint state of the two lifecycle tasks spawned by `continuous_check`,
at loop-iteration boundaries, abstracted to the sets of bridge lines
involved: `online` is the key set of the watcher's `channels` map, `failed`
the set of lines of the prober's `failed_bridges` list, `qOnce` the batches
queued on the once-online-now-failed channel, `qNow` the key sets of the
channel maps queued on the now-online channel, and `admitted` the set of
lines ever given to the system. -/
structure SysState where
  online : Finset String
  failed : Finset String
  qOnce : List (Finset String)
  qNow : List (Finset String)
  admitted : Finset String

/-- Union of the batches sitting in a queue. -/
def unionF (batches : List (Finset String)) : Finset String :=
  batches.foldr (fun b acc => b ∪ acc) ∅

/-- One loop iteration of `detect_bridges_going_down` (lines 205-224), at the
key-set level: partition `channels` by the observed `is_closing()` predicate
`closing`, send the closing lines as one batch on the once-online queue,
drain some prefix (`k` batches) of the now-online queue extending the
retained map, and make the result the new `channels`. -/
def detect_bridges_going_down_step (closing : String → Bool) (k : Nat)
    (s : SysState) : SysState where
  online := (s.online.filter fun x => ¬ closing x = true) ∪
    unionF (s.qNow.take k)
  failed := s.failed
  qOnce := s.qOnce ++ [s.online.filter fun x => closing x = true]
  qNow := s.qNow.drop k
  admitted := s.admitted

/-- One loop iteration of `check_failed_bridges_task` (lines 162-193), at the
key-set level: `test_bridges` opens channels for the lines of `failed` on
which the handshake now succeeds (`succ`), those lines leave `failed`
(`get_failed_bridges`) and are sent as one batch on the now-online queue; a
prefix (`k` batches) of the once-online queue is drained and spliced into
`failed`; the freshly admitted batches `newBs` from the intake queue are
merged into `failed` as a set union (`merge_new_bridges`). -/
def check_failed_bridges_step (succ : String → Bool) (k : Nat)
    (newBs : List (Finset String)) (s : SysState) : SysState where
  online := s.online
  failed := ((s.failed.filter fun x => ¬ succ x = true) ∪
    unionF (s.qOnce.take k)) ∪ unionF newBs
  qOnce := s.qOnce.drop k
  qNow := s.qNow ++ [s.failed.filter fun x => succ x = true]
  admitted := s.admitted ∪ unionF newBs

/-- Interleaving of the two cooperating tasks: either task may run its next
loop iteration; newly admitted intake batches consist of bridge lines not
already admitted. -/
inductive SysStep : SysState → SysState → Prop
  | watcher (closing : String → Bool) (k : Nat) (s : SysState) :
      SysStep s (detect_bridges_going_down_step closing k s)
  | prober (succ : String → Bool) (k : Nat) (newBs : List (Finset String))
      (s : SysState) (hfresh : ∀ b ∈ newBs, ∀ l ∈ b, l ∉ s.admitted) :
      SysStep s (check_failed_bridges_step succ k newBs s)

/-- Reachability by the two cooperating lifecycle tasks. -/
def SysReach : SysState → SysState → Prop :=
  Relation.ReflTransGen SysStep

/-- How many of the four locations (online, failed, a batch of the
once-online queue, a batch of the now-online queue) hold the line `l`,
counting queue batches with multiplicity. -/
def occCount (s : SysState) (l : String) : Nat :=
  (if l ∈ s.online then 1 else 0) + (if l ∈ s.failed then 1 else 0) +
    (s.qOnce.countP fun b => decide (l ∈ b)) +
    (s.qNow.countP fun b => decide (l ∈ b))

/-- The partition invariant: every admitted line is in exactly one of the
four locations, and no other line is anywhere. -/
def SysInv (s : SysState) : Prop :=
  ∀ l, occCount s l = if l ∈ s.admitted then 1 else 0

/-- Initial state for C2: one admitted bridge, online with an open channel,
nothing failed, queues empty. -/
def sC2 : SysState := ⟨{"b"}, ∅, [], [], {"b"}⟩

theorem runTask_line_time {env : ProbeEnv} {j : Nat} {l : String} {o : TaskOut}
    (h : runTask env j l = some o) : o.line = l ∧ o.time = env.clock j := by
  unfold runTask at h
  cases hp : env.parseErr l <;> rw [hp] at h
  · cases hpan : env.panics j <;> rw [hpan] at h
    · cases hr : env.probeRes j l <;> rw [hr] at h <;> injection h with h <;>
        subst h <;> exact ⟨rfl, rfl⟩
    · exact absurd h (by simp)
  · injection h with h
    subst h
    exact ⟨rfl, rfl⟩

theorem runTask_shape {env : ProbeEnv} {j : Nat} {l : String} {o : TaskOut}
    (h : runTask env j l = some o) :
    (∃ m, env.parseErr l = some m ∧ o.chan = none ∧ o.error = some m) ∨
      (env.parseErr l = none ∧
        ((∃ ch, o.chan = some ch ∧ o.error = none) ∨
          (∃ m, env.probeRes j l = Except.error m ∧ o.chan = none ∧
            o.error = some (stripError m)))) := by
  unfold runTask at h
  cases hp : env.parseErr l <;> rw [hp] at h
  · refine Or.inr ⟨rfl, ?_⟩
    cases hpan : env.panics j <;> rw [hpan] at h
    · cases hr : env.probeRes j l <;> rw [hr] at h <;> injection h with h <;>
        subst h
      · exact Or.inr ⟨_, rfl, rfl, rfl⟩
      · exact Or.inl ⟨_, rfl, rfl⟩
    · exact absurd h (by simp)
  · injection h with h
    subst h
    exact Or.inl ⟨_, rfl, rfl, rfl⟩

theorem runTask_isSome_of_noPanic {env : ProbeEnv} {j : Nat} {l : String}
    (h : env.panics j = false) : ∃ o, runTask env j l = some o ∧ o.line = l := by
  unfold runTask
  cases hp : env.parseErr l
  · rw [h]
    cases hr : env.probeRes j l
    · exact ⟨_, rfl, rfl⟩
    · exact ⟨_, rfl, rfl⟩
  · exact ⟨_, rfl, rfl⟩

theorem batchOuts_map_line {env : ProbeEnv}
    (hnp : ∀ i, env.panics i = false) :
    ∀ (b : List String) (i : Nat),
      (batchOuts env i b).map TaskOut.line = b := by
  intro b
  induction b with
  | nil => intro i; rfl
  | cons l rest ih =>
    intro i
    obtain ⟨o, ho, hline⟩ := @runTask_isSome_of_noPanic env i l (hnp i)
    simp [batchOuts, ho, hline, ih (i + 1)]

theorem batchOuts_line_sub {env : ProbeEnv} :
    ∀ (b : List String) (i : Nat) (o : TaskOut),
      o ∈ batchOuts env i b → o.line ∈ b := by
  intro b
  induction b with
  | nil => intro i o ho; simp [batchOuts] at ho
  | cons l rest ih =>
    intro i o ho
    simp only [batchOuts] at ho
    cases hr : runTask env i l <;> rw [hr] at ho
    · exact List.mem_cons_of_mem _ (ih (i + 1) o ho)
    · rcases List.mem_cons.mp ho with h | h
      · subst h
        rw [(runTask_line_time hr).1]
        exact List.mem_cons_self _ _
      · exact List.mem_cons_of_mem _ (ih (i + 1) o h)

theorem batchOuts_origin {env : ProbeEnv} :
    ∀ (b : List String) (i : Nat) (o : TaskOut),
      o ∈ batchOuts env i b →
        ∃ j, i ≤ j ∧ j < i + b.length ∧ runTask env j o.line = some o := by
  intro b
  induction b with
  | nil => intro i o ho; simp [batchOuts] at ho
  | cons l rest ih =>
    intro i o ho
    simp only [batchOuts] at ho
    cases hr : runTask env i l <;> rw [hr] at ho
    · obtain ⟨j, h1, h2, h3⟩ := ih (i + 1) o ho
      refine ⟨j, by omega, ?_, h3⟩
      simp only [List.length_cons]
      omega
    · rcases List.mem_cons.mp ho with h | h
      · subst h
        refine ⟨i, le_refl _, ?_, ?_⟩
        · simp only [List.length_cons]
          omega
        · rw [(runTask_line_time hr).1]
          exact hr
      · obtain ⟨j, h1, h2, h3⟩ := ih (i + 1) o h
        refine ⟨j, by omega, ?_, h3⟩
        simp only [List.length_cons]
        omega

theorem recordOuts_frame {key : String} :
    ∀ (outs : List TaskOut) (rc : RMap × CMap),
      key ∉ outs.map TaskOut.line →
        (recordOuts outs rc).1 key = rc.1 key ∧
          (recordOuts outs rc).2 key = rc.2 key := by
  intro outs
  induction outs with
  | nil => intro rc _; exact ⟨rfl, rfl⟩
  | cons o outs ih =>
    intro rc hk
    simp only [List.map_cons, List.mem_cons, not_or] at hk
    have step := ih (mupd rc.1 o.line ⟨o.chan.isSome, o.time, o.error⟩,
      match o.chan with
      | some ch => mupd rc.2 o.line ch
      | none => rc.2) hk.2
    refine ⟨?_, ?_⟩
    · rw [show recordOuts (o :: outs) rc = recordOuts outs _ from rfl, step.1]
      simp [mupd, hk.1]
    · rw [show recordOuts (o :: outs) rc = recordOuts outs _ from rfl, step.2]
      cases o.chan <;> simp [mupd, hk.1]

theorem recordOuts_mem :
    ∀ (outs : List TaskOut) (rc : RMap × CMap) (o : TaskOut),
      (outs.map TaskOut.line).Nodup → o ∈ outs →
        (recordOuts outs rc).1 o.line = some ⟨o.chan.isSome, o.time, o.error⟩ ∧
          (recordOuts outs rc).2 o.line =
            (match o.chan with
             | some ch => some ch
             | none => rc.2 o.line) := by
  intro outs
  induction outs with
  | nil => intro rc o _ ho; simp at ho
  | cons p outs ih =>
    intro rc o hnd ho
    simp only [List.map_cons, List.nodup_cons] at hnd
    rcases List.mem_cons.mp ho with h | h
    · subst h
      have hfr := @recordOuts_frame o.line outs
        (mupd rc.1 o.line ⟨o.chan.isSome, o.time, o.error⟩,
         match o.chan with
         | some ch => mupd rc.2 o.line ch
         | none => rc.2) hnd.1
      refine ⟨?_, ?_⟩
      · rw [show recordOuts (o :: outs) rc = recordOuts outs _ from rfl, hfr.1]
        simp [mupd]
      · rw [show recordOuts (o :: outs) rc = recordOuts outs _ from rfl, hfr.2]
        cases o.chan <;> simp [mupd]
    · have hne : o.line ≠ p.line := by
        intro he
        exact hnd.1 (he ▸ List.mem_map_of_mem TaskOut.line h)
      have step := ih (mupd rc.1 p.line ⟨p.chan.isSome, p.time, p.error⟩,
        match p.chan with
        | some ch => mupd rc.2 p.line ch
        | none => rc.2) o hnd.2 h
      refine ⟨?_, ?_⟩
      · rw [show recordOuts (p :: outs) rc = recordOuts outs _ from rfl, step.1]
      · rw [show recordOuts (p :: outs) rc = recordOuts outs _ from rfl, step.2]
        cases p.chan <;> cases o.chan <;> simp [mupd, hne]

theorem recordOuts_origin {key : String} {res : BridgeResult} :
    ∀ (outs : List TaskOut) (rc : RMap × CMap),
      (recordOuts outs rc).1 key = some res →
        rc.1 key = some res ∨
          ∃ o, o ∈ outs ∧ o.line = key ∧
            res = ⟨o.chan.isSome, o.time, o.error⟩ := by
  intro outs
  induction outs with
  | nil => intro rc h; exact Or.inl h
  | cons o outs ih =>
    intro rc h
    rw [show recordOuts (o :: outs) rc = recordOuts outs _ from rfl] at h
    rcases ih _ h with h1 | ⟨p, hp, hpl, hpe⟩
    · by_cases he : key = o.line
      · subst he
        simp [mupd] at h1
        exact Or.inr ⟨o, List.mem_cons_self _ _, rfl, h1.symm⟩
      · simp [mupd, he] at h1
        exact Or.inl h1
    · exact Or.inr ⟨p, List.mem_cons_of_mem _ hp, hpl, hpe⟩

theorem probeBatchesAux_flatten :
    ∀ (fuel : Nat) (l : List String), l.length ≤ fuel →
      (probeBatchesAux fuel l).flatten = l := by
  intro fuel
  induction fuel with
  | zero =>
    intro l hl
    have : l = [] := List.eq_nil_of_length_eq_zero (Nat.le_zero.mp hl)
    subst this
    rfl
  | succ fuel ih =>
    intro l hl
    match l with
    | [] => rfl
    | x :: rest =>
      have hlen : ((x :: rest).drop MAX_CONNECTIONS).length ≤ fuel := by
        simp only [List.length_drop, List.length_cons, MAX_CONNECTIONS] at *
        omega
      show (x :: rest).take MAX_CONNECTIONS ++
          (probeBatchesAux fuel ((x :: rest).drop MAX_CONNECTIONS)).flatten =
        x :: rest
      rw [ih _ hlen]
      exact List.take_append_drop _ _

theorem probeBatches_flatten (l : List String) : (probeBatches l).flatten = l :=
  probeBatchesAux_flatten l.length l (le_refl _)

/-- C1 counterexample: probing the duplicate list `["b", "b"]` where the first
occurrence opens a channel and the second fails, the returned results map
gives `"b"` `functional = false` (last insertion wins) while `"b"` is still a
key of the returned channels map — so functional is not equivalent to channel
membership, refuting the claim as stated. -/
theorem claim1_cex :
    tbResult envC1 ["b", "b"] "b" = some ⟨false, 1, some "x"⟩ ∧
      (tbChan envC1 ["b", "b"] "b").isSome = true := by
  decide

theorem runBatches_c1 {env : ProbeEnv} (hnp : ∀ i, env.panics i = false) :
    ∀ (bs : List (List String)) (off : Nat) (r : RMap) (c : CMap)
      (r' : RMap) (c' : CMap),
      bs.flatten.Nodup →
      (∀ l ∈ bs.flatten, r l = none ∧ c l = none) →
      runBatches env bs off r c = some (r', c') →
      (∀ l ∈ bs.flatten, ∃ res, r' l = some res ∧
        (res.functional = true ↔ (c' l).isSome = true)) ∧
      (∀ k, k ∉ bs.flatten → r' k = r k ∧ c' k = c k) := by
  intro bs
  induction bs with
  | nil =>
    intro off r c r' c' _ _ h
    injection h with h
    rw [Prod.mk.injEq] at h
    obtain ⟨h1, h2⟩ := h
    subst h1; subst h2
    exact ⟨fun l hl => absurd hl (by simp), fun k _ => ⟨rfl, rfl⟩⟩
  | cons b bs ih =>
    intro off r c r' c' hnd hfresh h
    rw [show (b :: bs).flatten = b ++ bs.flatten from rfl] at hnd hfresh
    rw [List.nodup_append] at hnd
    obtain ⟨hndb, hndbs, hdisj⟩ := hnd
    rw [show runBatches env (b :: bs) off r c =
      (match batchBuildOk env b with
       | false => none
       | true =>
          runBatches env bs (off + b.length)
            (recordOuts (batchOuts env off b) (r, c)).1
            (recordOuts (batchOuts env off b) (r, c)).2) from rfl] at h
    cases hbo : batchBuildOk env b <;> rw [hbo] at h
    · exact absurd h (by simp)
    · have hmap : (batchOuts env off b).map TaskOut.line = b :=
        batchOuts_map_line hnp b off
      have hndouts : ((batchOuts env off b).map TaskOut.line).Nodup := by
        rw [hmap]; exact hndb
      have hfresh1 : ∀ l ∈ bs.flatten,
          (recordOuts (batchOuts env off b) (r, c)).1 l = none ∧
            (recordOuts (batchOuts env off b) (r, c)).2 l = none := by
        intro l hl
        have hnb : l ∉ (batchOuts env off b).map TaskOut.line := by
          rw [hmap]
          intro hmem
          exact hdisj hmem hl
        have hfr := recordOuts_frame (batchOuts env off b) (r, c) hnb
        exact ⟨hfr.1.trans (hfresh l (List.mem_append_right _ hl)).1,
               hfr.2.trans (hfresh l (List.mem_append_right _ hl)).2⟩
      have hrec := ih (off + b.length) _ _ r' c' hndbs hfresh1 h
      constructor
      · intro l hl
        rw [show (b :: bs).flatten = b ++ bs.flatten from rfl] at hl
        rcases List.mem_append.mp hl with hb | hbs
        · have hlm : l ∈ (batchOuts env off b).map TaskOut.line := by
            rw [hmap]; exact hb
          obtain ⟨o, ho, holine⟩ := List.mem_map.mp hlm
          have hoe := recordOuts_mem (batchOuts env off b) (r, c) o hndouts ho
          have hnotbs : l ∉ bs.flatten := fun hc => hdisj hb hc
          have hframe := hrec.2 l hnotbs
          refine ⟨⟨o.chan.isSome, o.time, o.error⟩, ?_, ?_⟩
          · rw [hframe.1, ← holine, hoe.1]
          · rw [hframe.2, ← holine, hoe.2]
            have hcl : c o.line = none := by
              rw [holine]
              exact (hfresh l (List.mem_append_left _ hb)).2
            cases hch : o.chan <;> simp [hch, hcl]
        · exact hrec.1 l hbs
      · intro k hk
        rw [show (b :: bs).flatten = b ++ bs.flatten from rfl] at hk
        have hkb : k ∉ b := fun hc => hk (List.mem_append_left _ hc)
        have hkbs : k ∉ bs.flatten := fun hc => hk (List.mem_append_right _ hc)
        have hframe := hrec.2 k hkbs
        have hnb : k ∉ (batchOuts env off b).map TaskOut.line := by
          rw [hmap]; exact hkb
        have hfr := recordOuts_frame (batchOuts env off b) (r, c) hnb
        exact ⟨hframe.1.trans hfr.1, hframe.2.trans hfr.2⟩

/-- C1, amended: the claim as stated fails on inputs with duplicate lines
(see `claim1_cex`) and on panicking tasks (see `claim3_cex`); for a
duplicate-free input whose probe tasks do not panic, whenever the call
returns, the results map has an entry for every supplied line and an entry's
functional field is true iff that line is a key of the channels map. -/
theorem claim1_thm (env : ProbeEnv) (bridge_lines : List String)
    (hnd : bridge_lines.Nodup) (hnp : ∀ i, env.panics i = false)
    (hs : (test_bridges env bridge_lines).isSome = true) :
    ∀ l ∈ bridge_lines, ∃ res, tbResult env bridge_lines l = some res ∧
      (res.functional = true ↔ (tbChan env bridge_lines l).isSome = true) := by
  intro l hl
  cases h : test_bridges env bridge_lines with
  | none => rw [h] at hs; simp at hs
  | some rc =>
    obtain ⟨r, c⟩ := rc
    have hflat : (probeBatches bridge_lines).flatten = bridge_lines :=
      probeBatches_flatten bridge_lines
    have hnd' : (probeBatches bridge_lines).flatten.Nodup := by
      rw [hflat]; exact hnd
    have hl' : l ∈ (probeBatches bridge_lines).flatten := by
      rw [hflat]; exact hl
    have hrun : runBatches env (probeBatches bridge_lines) 0
        (fun _ => none) (fun _ => none) = some (r, c) := h
    have hmain := runBatches_c1 hnp (probeBatches bridge_lines) 0
      (fun _ => none) (fun _ => none) r c hnd' (fun _ _ => ⟨rfl, rfl⟩) hrun
    obtain ⟨res, hres, hiff⟩ := hmain.1 l hl'
    refine ⟨res, ?_, ?_⟩
    · rw [tbResult, h]
      exact hres
    · rw [tbChan, h]
      exact hiff

/-- C1 witness: on the singleton input `["b"]` with a successful probe, the
amended theorem applies and yields a functional entry with a channel. -/
theorem claim1_witness :
    ∃ res, tbResult envC1 ["b"] "b" = some res ∧
      (res.functional = true ↔ (tbChan envC1 ["b"] "b").isSome = true) :=
  claim1_thm envC1 ["b"] (by decide) (fun _ => rfl) (by decide) "b"
    (by decide)

/-- C3 counterexample: when the probe task for `"b"` panics, `test_bridges`
still returns (the panic is not propagated), but the results map has NO entry
for `"b"` at all — `join_all`'s `JoinError` is silently discarded by
`.flatten()` — rather than the claimed entry with
`error = Some("internal probe failure")` (a string that appears nowhere in
the source). -/
theorem claim3_cex :
    (test_bridges envC3 ["b"]).isSome = true ∧
      tbResult envC3 ["b"] "b" = none := by
  decide

theorem batchOuts_nil_of_panics {env : ProbeEnv}
    (hpan : ∀ i, env.panics i = true) (hpe : ∀ l, env.parseErr l = none) :
    ∀ (b : List String) (i : Nat), batchOuts env i b = [] := by
  intro b
  induction b with
  | nil => intro i; rfl
  | cons l rest ih =>
    intro i
    have hr : runTask env i l = none := by
      unfold runTask
      rw [hpe l, hpan i]
    simp only [batchOuts, hr]
    exact ih (i + 1)

theorem runBatches_panics {env : ProbeEnv}
    (hpan : ∀ i, env.panics i = true) (hpe : ∀ l, env.parseErr l = none)
    (hbk : ∀ l, env.buildOk l = true) :
    ∀ (bs : List (List String)) (off : Nat) (r : RMap) (c : CMap),
      runBatches env bs off r c = some (r, c) := by
  intro bs
  induction bs with
  | nil => intro off r c; rfl
  | cons b bs ih =>
    intro off r c
    have hbo : batchBuildOk env b = true := by
      unfold batchBuildOk
      rw [List.all_eq_true]
      intro l _
      rw [hbk l]
      exact Bool.or_true _
    rw [show runBatches env (b :: bs) off r c =
      (match batchBuildOk env b with
       | false => none
       | true =>
          runBatches env bs (off + b.length)
            (recordOuts (batchOuts env off b) (r, c)).1
            (recordOuts (batchOuts env off b) (r, c)).2) from rfl]
    rw [hbo, batchOuts_nil_of_panics hpan hpe b off]
    exact ih (off + b.length) r c

/-- C3, amended: a panicking probe task is indeed not propagated to the
caller of `test_bridges`, but it is NOT reported either: when every probe
task panics (on an input whose lines all parse and build), the call returns
normally with empty results and channels maps — the panicked bridge lines
are silently omitted, and no `"internal probe failure"` entry exists. -/
theorem claim3_thm (env : ProbeEnv) (bridge_lines : List String)
    (hpan : ∀ i, env.panics i = true) (hpe : ∀ l, env.parseErr l = none)
    (hbk : ∀ l, env.buildOk l = true) :
    (test_bridges env bridge_lines).isSome = true ∧
      ∀ key, tbResult env bridge_lines key = none ∧
        tbChan env bridge_lines key = none := by
  have h : test_bridges env bridge_lines =
      some (fun _ => none, fun _ => none) :=
    runBatches_panics hpan hpe hbk (probeBatches bridge_lines) 0 _ _
  refine ⟨by rw [h]; rfl, fun key => ⟨?_, ?_⟩⟩
  · rw [tbResult, h]
  · rw [tbChan, h]

/-- C3 witness: the amended theorem applied to the singleton input `["x"]`
under the all-panicking environment. -/
theorem claim3_witness :
    (test_bridges envC3 ["x"]).isSome = true ∧
      ∀ key, tbResult envC3 ["x"] key = none ∧ tbChan envC3 ["x"] key = none :=
  claim3_thm envC3 ["x"] (fun _ => rfl) (fun _ => rfl) (fun _ => rfl)

theorem runBatches_origin {env : ProbeEnv} :
    ∀ (bs : List (List String)) (off : Nat) (r : RMap) (c : CMap)
      (r' : RMap) (c' : CMap),
      runBatches env bs off r c = some (r', c') →
      ∀ key res, r' key = some res →
        r key = some res ∨
          ∃ j o, off ≤ j ∧ j < off + bs.flatten.length ∧
            runTask env j key = some o ∧
            res = ⟨o.chan.isSome, o.time, o.error⟩ := by
  intro bs
  induction bs with
  | nil =>
    intro off r c r' c' h key res hres
    injection h with h
    rw [Prod.mk.injEq] at h
    obtain ⟨h1, h2⟩ := h
    subst h1; subst h2
    exact Or.inl hres
  | cons b bs ih =>
    intro off r c r' c' h key res hres
    rw [show runBatches env (b :: bs) off r c =
      (match batchBuildOk env b with
       | false => none
       | true =>
          runBatches env bs (off + b.length)
            (recordOuts (batchOuts env off b) (r, c)).1
            (recordOuts (batchOuts env off b) (r, c)).2) from rfl] at h
    cases hbo : batchBuildOk env b <;> rw [hbo] at h
    · exact absurd h (by simp)
    · rcases ih (off + b.length) _ _ r' c' h key res hres with h1 | h1
      · rcases recordOuts_origin (batchOuts env off b) (r, c) h1 with h2 | h2
        · exact Or.inl h2
        · obtain ⟨o, ho, holine, hoe⟩ := h2
          obtain ⟨j, hj1, hj2, hj3⟩ := batchOuts_origin b off o ho
          refine Or.inr ⟨j, o, hj1, ?_, by rw [← holine]; exact hj3, hoe⟩
          have : bs.flatten.length + b.length =
              ((b :: bs).flatten).length := by
            rw [show (b :: bs).flatten = b ++ bs.flatten from rfl,
              List.length_append]
            omega
          omega
      · obtain ⟨j, o, hj1, hj2, hj3, hj4⟩ := h1
        refine Or.inr ⟨j, o, by omega, ?_, hj3, hj4⟩
        rw [show (b :: bs).flatten = b ++ bs.flatten from rfl,
          List.length_append] at *
        omega

/-- C4, amended: error strings stored by `test_bridges` follow two different
regimes.  A handshake (probe) failure is stored with every occurrence of
`"error: "` removed from the library's report string; a parse failure is
stored as the verbatim report string, with NO `"error: "` removal applied.
The claim's assertion that parse-failure strings also have the prefix
removed is refuted by `claim4_cex`.  (Single-line-ness is a property of the
library's report output, which the code does not transform further.) -/
theorem claim4_thm (env : ProbeEnv) (bridge_lines : List String)
    (key : String) (res : BridgeResult)
    (h : tbResult env bridge_lines key = some res) :
    (∃ m, env.parseErr key = some m ∧ res.error = some m) ∨
      (env.parseErr key = none ∧
        (res.error = none ∨
          ∃ i m, env.probeRes i key = Except.error m ∧
            res.error = some (stripError m))) := by
  rw [tbResult] at h
  cases ht : test_bridges env bridge_lines with
  | none => rw [ht] at h; exact absurd h (by simp)
  | some rc =>
    rw [ht] at h
    obtain ⟨r, c⟩ := rc
    have hrun : runBatches env (probeBatches bridge_lines) 0
        (fun _ => none) (fun _ => none) = some (r, c) := ht
    rcases runBatches_origin (probeBatches bridge_lines) 0 _ _ r c hrun
        key res h with h1 | h1
    · exact absurd h1 (by simp)
    · obtain ⟨j, o, _, _, hrt, hoe⟩ := h1
      rcases runTask_shape hrt with ⟨m, hm1, _, hm3⟩ | ⟨hp, hsh⟩
      · exact Or.inl ⟨m, hm1, by rw [hoe]; exact hm3⟩
      · refine Or.inr ⟨hp, ?_⟩
        rcases hsh with ⟨ch, _, he⟩ | ⟨m, hm1, _, hm3⟩
        · exact Or.inl (by rw [hoe]; exact he)
        · exact Or.inr ⟨j, m, hm1, by rw [hoe]; exact hm3⟩

/-- C4 counterexample: a parse failure whose report string is
`"error: bad"` is stored verbatim in the results map — the `"error: "`
prefix is NOT removed (removing it, as the code does for handshake errors,
would have produced `"bad"`), refuting the claim that every stored error
string has the prefix removed. -/
theorem claim4_cex :
    tbResult envC4 ["b"] "b" = some ⟨false, 0, some "error: bad"⟩ ∧
      stripError "error: bad" = "bad" ∧ "error: bad" ≠ "bad" := by
  decide

/-- C4 witness: the amended theorem applied to the parse-failure input,
yielding the verbatim-parse-error disjunct. -/
theorem claim4_witness :
    (∃ m, envC4.parseErr "b" = some m ∧
      (⟨false, 0, some "error: bad"⟩ : BridgeResult).error = some m) ∨
      (envC4.parseErr "b" = none ∧
        ((⟨false, 0, some "error: bad"⟩ : BridgeResult).error = none ∨
          ∃ i m, envC4.probeRes i "b" = Except.error m ∧
            (⟨false, 0, some "error: bad"⟩ : BridgeResult).error =
              some (stripError m))) :=
  claim4_thm envC4 ["b"] "b" ⟨false, 0, some "error: bad"⟩ (by decide)

theorem probeBatchesAux_length :
    ∀ (fuel : Nat) (l : List String) (b : List String),
      b ∈ probeBatchesAux fuel l → b.length ≤ MAX_CONNECTIONS := by
  intro fuel
  induction fuel with
  | zero => intro l b hb; simp [probeBatchesAux] at hb
  | succ fuel ih =>
    intro l b hb
    match l with
    | [] => simp [probeBatchesAux] at hb
    | x :: rest =>
      rcases List.mem_cons.mp hb with h | h
      · rw [h]
        exact List.length_take_le _ _
      · exact ih _ b h

/-- C5: the probe executor is exactly the sequential processing of the
batches `probeBatches bridge_lines` (each batch's tasks are all awaited by
`join_all` and recorded before the next batch is formed), every batch has at
most `MAX_CONNECTIONS` lines, the batches cover the input in order, and
`MAX_CONNECTIONS = 10` — so at no instant are more than 10 probe handshakes
in flight. -/
theorem claim5_thm (env : ProbeEnv) (bridge_lines : List String) :
    test_bridges env bridge_lines =
        runBatches env (probeBatches bridge_lines) 0
          (fun _ => none) (fun _ => none) ∧
      (∀ b ∈ probeBatches bridge_lines, b.length ≤ MAX_CONNECTIONS) ∧
      (probeBatches bridge_lines).flatten = bridge_lines ∧
      MAX_CONNECTIONS = 10 :=
  ⟨rfl, fun b hb => probeBatchesAux_length _ _ b hb,
    probeBatches_flatten bridge_lines, rfl⟩

/-- C5 witness: on the eleven-line input, the first batch (of ten lines) is
within the `MAX_CONNECTIONS` bound. -/
theorem claim5_witness :
    (["a", "b", "c", "d", "e", "f", "g", "h", "i", "j"] :
      List String).length ≤ MAX_CONNECTIONS :=
  (claim5_thm envC1 linesC5).2.1
    ["a", "b", "c", "d", "e", "f", "g", "h", "i", "j"] (by decide)

theorem runBatches_isSome {env : ProbeEnv} :
    ∀ (bs : List (List String)) (off : Nat) (r : RMap) (c : CMap),
      (runBatches env bs off r c).isSome = true ↔
        ∀ b ∈ bs, batchBuildOk env b = true := by
  intro bs
  induction bs with
  | nil => intro off r c; simp [runBatches]
  | cons b bs ih =>
    intro off r c
    rw [show runBatches env (b :: bs) off r c =
      (match batchBuildOk env b with
       | false => none
       | true =>
          runBatches env bs (off + b.length)
            (recordOuts (batchOuts env off b) (r, c)).1
            (recordOuts (batchOuts env off b) (r, c)).2) from rfl]
    cases hbo : batchBuildOk env b
    · simp only [Option.isSome_none]
      constructor
      · intro h; exact absurd h (by simp)
      · intro h
        have := h b (List.mem_cons_self _ _)
        rw [hbo] at this
        exact absurd this (by simp)
    · rw [ih (off + b.length) _ _]
      constructor
      · intro h b' hb'
        rcases List.mem_cons.mp hb' with he | he
        · rw [he]; exact hbo
        · exact h b' he
      · intro h b' hb'
        exact h b' (List.mem_cons_of_mem _ hb')

/-- C9: the `bridge.build().unwrap()` in the task-collection closure makes a
parse-success/build-failure abort the whole `test_bridges` call (the panic
escapes the closure, which runs in the caller, so nothing is returned and no
per-bridge failure result is produced): the call returns a value iff every
line that parses also builds.  The code thereby assumes the library
guarantee that a successfully parsed bridge line always builds. -/
theorem claim9_thm (env : ProbeEnv) (bridge_lines : List String) :
    (test_bridges env bridge_lines).isSome = true ↔
      ∀ l ∈ bridge_lines, env.parseErr l = none → env.buildOk l = true := by
  rw [test_bridges, runBatches_isSome (probeBatches bridge_lines) 0 _ _]
  constructor
  · intro h l hl hp
    have hl' : l ∈ (probeBatches bridge_lines).flatten := by
      rw [probeBatches_flatten]; exact hl
    obtain ⟨b, hb, hlb⟩ := List.mem_flatten.mp hl'
    have := h b hb
    unfold batchBuildOk at this
    rw [List.all_eq_true] at this
    have := this l hlb
    rw [hp] at this
    simpa using this
  · intro h b hb
    unfold batchBuildOk
    rw [List.all_eq_true]
    intro l hlb
    have hl : l ∈ bridge_lines := by
      rw [← probeBatches_flatten bridge_lines]
      exact List.mem_flatten.mpr ⟨b, hb, hlb⟩
    cases hp : env.parseErr l
    · rw [h l hl hp]
      exact Bool.or_true _
    · rfl

/-- C9 witness: a call in which every line parses and builds returns a
value. -/
theorem claim9_witness : (test_bridges envC1 ["b"]).isSome = true :=
  (claim9_thm envC1 ["b"]).mpr (by decide)

/-- C6: merging a drained batch of newly admitted bridge lines into the
failed collection yields, as a set, exactly the union of the batch and the
previous failed collection, with no duplicate lines. -/
theorem claim6_thm (new_failures failed_bridges : List String) :
    (merge_new_bridges new_failures failed_bridges).toFinset =
        new_failures.toFinset ∪ failed_bridges.toFinset ∧
      (merge_new_bridges new_failures failed_bridges).Nodup := by
  constructor
  · ext a
    simp [merge_new_bridges, List.mem_toFinset, List.mem_dedup,
      List.mem_append, Finset.mem_union]
  · exact List.nodup_dedup _

/-- C6 witness: a concrete merge with an overlapping line. -/
theorem claim6_witness :
    (merge_new_bridges ["a"] ["a", "b"]).toFinset =
      (["a"] : List String).toFinset ∪ (["a", "b"] : List String).toFinset :=
  (claim6_thm ["a"] ["a", "b"]).1

theorem detect_partition_failed_sub :
    ∀ (cs : List (String × Bool)) (l : String),
      l ∈ (detect_partition cs).1 → (l, true) ∈ cs := by
  intro cs
  induction cs with
  | nil => intro l h; simp [detect_partition] at h
  | cons p rest ih =>
    intro l h
    obtain ⟨k, b⟩ := p
    cases b
    · exact List.mem_cons_of_mem _ (ih l h)
    · rcases List.mem_cons.mp h with he | he
      · rw [he]; exact List.mem_cons_self _ _
      · exact List.mem_cons_of_mem _ (ih l he)

theorem detect_partition_kept_sub :
    ∀ (cs : List (String × Bool)) (l : String) (b : Bool),
      (l, b) ∈ (detect_partition cs).2 → (l, b) ∈ cs ∧ b = false := by
  intro cs
  induction cs with
  | nil => intro l b h; simp [detect_partition] at h
  | cons p rest ih =>
    intro l b h
    obtain ⟨k, v⟩ := p
    cases v
    · rcases List.mem_cons.mp h with he | he
      · injection he with h1 h2
        subst h1
        subst h2
        exact ⟨List.mem_cons_self _ _, rfl⟩
      · exact ⟨List.mem_cons_of_mem _ (ih l b he).1, (ih l b he).2⟩
    · exact ⟨List.mem_cons_of_mem _ (ih l b h).1, (ih l b h).2⟩

theorem detect_partition_mem_failed :
    ∀ (cs : List (String × Bool)) (l : String),
      (l, true) ∈ cs → l ∈ (detect_partition cs).1 := by
  intro cs
  induction cs with
  | nil => intro l h; simp at h
  | cons p rest ih =>
    intro l h
    obtain ⟨k, v⟩ := p
    rcases List.mem_cons.mp h with he | he
    · injection he with h1 h2
      subst h1
      subst h2
      exact List.mem_cons_self _ _
    · cases v
      · exact ih l he
      · exact List.mem_cons_of_mem _ (ih l he)

theorem detect_partition_mem_kept :
    ∀ (cs : List (String × Bool)) (l : String),
      (l, false) ∈ cs → (l, false) ∈ (detect_partition cs).2 := by
  intro cs
  induction cs with
  | nil => intro l h; simp at h
  | cons p rest ih =>
    intro l h
    obtain ⟨k, v⟩ := p
    rcases List.mem_cons.mp h with he | he
    · injection he with h1 h2
      subst h1
      subst h2
      exact List.mem_cons_self _ _
    · cases v
      · exact List.mem_cons_of_mem _ (ih l he)
      · exact ih l he

theorem keys_nodup_unique_flag :
    ∀ (cs : List (String × Bool)) (l : String) (b1 b2 : Bool),
      (cs.map Prod.fst).Nodup → (l, b1) ∈ cs → (l, b2) ∈ cs → b1 = b2 := by
  intro cs
  induction cs with
  | nil => intro l b1 b2 _ h; simp at h
  | cons p rest ih =>
    intro l b1 b2 hnd h1 h2
    simp only [List.map_cons, List.nodup_cons] at hnd
    rcases List.mem_cons.mp h1 with he1 | he1 <;>
      rcases List.mem_cons.mp h2 with he2 | he2
    · rw [← he1] at he2
      injection he2 with _ h
      exact h.symm
    · exfalso
      apply hnd.1
      have hp1 : p.1 = l := by rw [← he1]
      rw [hp1]
      exact List.mem_map_of_mem Prod.fst he2
    · exfalso
      apply hnd.1
      have hp1 : p.1 = l := by rw [← he2]
      rw [hp1]
      exact List.mem_map_of_mem Prod.fst he1
    · exact ih l b1 b2 hnd.2 he1 he2

/-- C7: in each iteration of `detect_bridges_going_down`, the previous
channels map (with its distinct keys) is partitioned by the observed
`is_closing()` value: every closing bridge is in the failure list and absent
from the retained map, every non-closing bridge is retained and not in the
failure list, no bridge is in both parts, and no bridge is lost. -/
theorem claim7_thm (cs : List (String × Bool))
    (hnd : (cs.map Prod.fst).Nodup) :
    (∀ l, (l, true) ∈ cs → l ∈ (detect_partition cs).1 ∧
        l ∉ (detect_partition cs).2.map Prod.fst) ∧
      (∀ l, (l, false) ∈ cs → l ∉ (detect_partition cs).1 ∧
        (l, false) ∈ (detect_partition cs).2) ∧
      (∀ l, ¬(l ∈ (detect_partition cs).1 ∧
        l ∈ (detect_partition cs).2.map Prod.fst)) ∧
      (∀ l, l ∈ cs.map Prod.fst ↔
        l ∈ (detect_partition cs).1 ∨
          l ∈ (detect_partition cs).2.map Prod.fst) := by
  have hkept : ∀ l, l ∈ (detect_partition cs).2.map Prod.fst →
      (l, false) ∈ cs := by
    intro l hl
    obtain ⟨p, hp, hpl⟩ := List.mem_map.mp hl
    have hps : (p.1, p.2) ∈ (detect_partition cs).2 := by
      rw [Prod.mk.eta]
      exact hp
    have := detect_partition_kept_sub cs p.1 p.2 hps
    rw [← hpl, ← this.2]
    rw [Prod.mk.eta]
    exact this.1
  have hno : ∀ l, ¬(l ∈ (detect_partition cs).1 ∧
      l ∈ (detect_partition cs).2.map Prod.fst) := by
    intro l ⟨h1, h2⟩
    have ht : (l, true) ∈ cs := detect_partition_failed_sub cs l h1
    have hf : (l, false) ∈ cs := hkept l h2
    exact absurd (keys_nodup_unique_flag cs l true false hnd ht hf)
      (by simp)
  refine ⟨?_, ?_, hno, ?_⟩
  · intro l hl
    have h1 := detect_partition_mem_failed cs l hl
    exact ⟨h1, fun h2 => hno l ⟨h1, h2⟩⟩
  · intro l hl
    refine ⟨?_, detect_partition_mem_kept cs l hl⟩
    intro h1
    have ht : (l, true) ∈ cs := detect_partition_failed_sub cs l h1
    exact absurd (keys_nodup_unique_flag cs l true false hnd ht hl) (by simp)
  · intro l
    constructor
    · intro hl
      obtain ⟨p, hp, hpl⟩ := List.mem_map.mp hl
      have hps : (l, p.2) ∈ cs := by
        rw [← hpl, Prod.mk.eta]
        exact hp
      cases hb : p.2
      · rw [hb] at hps
        exact Or.inr (List.mem_map_of_mem Prod.fst
          (detect_partition_mem_kept cs l hps))
      · rw [hb] at hps
        exact Or.inl (detect_partition_mem_failed cs l hps)
    · intro hl
      rcases hl with h | h
      · exact List.mem_map_of_mem Prod.fst
          (detect_partition_failed_sub cs l h)
      · exact List.mem_map_of_mem Prod.fst (hkept l h)

/-- C7 witness: partitioning the two-channel map where `"a"`'s channel is
closing and `"b"`'s is not. -/
theorem claim7_witness :
    "a" ∈ (detect_partition [("a", true), ("b", false)]).1 ∧
      "a" ∉ (detect_partition [("a", true), ("b", false)]).2.map Prod.fst :=
  (claim7_thm [("a", true), ("b", false)] (by decide)).1 "a" (by decide)

theorem detect_partition_empty_iff :
    ∀ cs : List (String × Bool),
      (detect_partition cs).1 = [] ↔ ∀ p ∈ cs, p.2 = false := by
  intro cs
  induction cs with
  | nil => simp [detect_partition]
  | cons p rest ih =>
    obtain ⟨k, v⟩ := p
    cases v
    · rw [show (detect_partition ((k, false) :: rest)).1 =
        (detect_partition rest).1 from rfl, ih]
      constructor
      · intro h q hq
        rcases List.mem_cons.mp hq with he | he
        · rw [he]
        · exact h q he
      · intro h q hq
        exact h q (List.mem_cons_of_mem _ hq)
    · rw [show (detect_partition ((k, true) :: rest)).1 =
        k :: (detect_partition rest).1 from rfl]
      constructor
      · intro h
        exact absurd h (by simp)
      · intro h
        have := h (k, true) (List.mem_cons_self _ _)
        exact absurd this (by simp)

/-- C10: every iteration of the liveness watcher sends exactly one message
on the once-online-now-failed queue; that message is the empty list iff no
channel of the iteration's map reported closing; and when the prober's drain
loop meets that empty-slice sentinel after any run of non-empty batches, it
stops right there — consuming exactly the batches before the sentinel,
leaving the rest of the queue, and not ending by the receive timeout. -/
theorem claim10_thm :
    (∀ cs : List (String × Bool), (once_online_send cs).length = 1) ∧
      (∀ cs : List (String × Bool),
        ((detect_partition cs).1 = [] ↔ ∀ p ∈ cs, p.2 = false)) ∧
      (∀ (qs rest : List (List String)) (failed : List String),
        (∀ b ∈ qs, b ≠ []) →
          drainOnce (qs ++ [] :: rest) failed =
            (qs.foldl (fun f b => b ++ f) failed, rest, false)) := by
  refine ⟨fun _ => rfl, detect_partition_empty_iff, ?_⟩
  intro qs
  induction qs with
  | nil => intro rest failed _; rfl
  | cons b qs ih =>
    intro rest failed hne
    match b, hne b (List.mem_cons_self _ _) with
    | x :: xs, _ =>
      exact ih rest ((x :: xs) ++ failed)
        (fun b' hb' => hne b' (List.mem_cons_of_mem _ hb'))

/-- C10 witness: a queue holding one non-empty batch, the sentinel, and a
later batch: the drain splices the first batch, stops at the sentinel, and
does not wait out the timeout. -/
theorem claim10_witness :
    drainOnce [["a"], [], ["z"]] [] = (["a"], [["z"]], false) :=
  claim10_thm.2.2 [["a"]] [["z"]] [] (by decide)

theorem sumLenTo_zero : ∀ rounds : List (ProbeEnv × List String),
    sumLenTo rounds 0 = 0 := by
  intro rounds
  cases rounds <;> rfl

theorem sumLenTo_mono :
    ∀ (rounds : List (ProbeEnv × List String)) (n m : Nat), n ≤ m →
      sumLenTo rounds n ≤ sumLenTo rounds m := by
  intro rounds
  induction rounds with
  | nil =>
    intro n m _
    cases n <;> cases m <;> simp [sumLenTo]
  | cons p rest ih =>
    intro n m hnm
    cases n with
    | zero => cases m <;> simp [sumLenTo]
    | succ n =>
      cases m with
      | zero => omega
      | succ m =>
        simp only [sumLenTo]
        have := ih n m (by omega)
        omega

theorem tb_time_bound (gc : Nat → Nat) (e : ProbeEnv) (off : Nat)
    (ls : List String) (key : String) (res : BridgeResult)
    (h : tbResult (withClock e fun i => gc (off + i)) ls key = some res) :
    ∃ t, off ≤ t ∧ t < off + ls.length ∧ res.last_tested = gc t := by
  rw [tbResult] at h
  cases ht : test_bridges (withClock e fun i => gc (off + i)) ls with
  | none => rw [ht] at h; exact absurd h (by simp)
  | some rc =>
    rw [ht] at h
    obtain ⟨r, c⟩ := rc
    have hrun : runBatches (withClock e fun i => gc (off + i))
        (probeBatches ls) 0 (fun _ => none) (fun _ => none) = some (r, c) := ht
    rcases runBatches_origin (probeBatches ls) 0 _ _ r c hrun key res h with
      h1 | h1
    · exact absurd h1 (by simp)
    · obtain ⟨j, o, _, hj2, hrt, hoe⟩ := h1
      have hflat : (probeBatches ls).flatten.length = ls.length := by
        rw [probeBatches_flatten]
      rw [hflat] at hj2
      refine ⟨off + j, by omega, by omega, ?_⟩
      rw [hoe]
      exact (runTask_line_time hrt).2

theorem publishedAt_time {gc : Nat → Nat} :
    ∀ (rounds : List (ProbeEnv × List String)) (off k : Nat) (line : String)
      (res : BridgeResult),
      publishedAt gc rounds off k line = some res →
        ∃ t, off + sumLenTo rounds k ≤ t ∧
          t < off + sumLenTo rounds (k + 1) ∧ res.last_tested = gc t := by
  intro rounds
  induction rounds with
  | nil =>
    intro off k line res h
    rw [publishedAt] at h
    simp [runRounds] at h
  | cons p rest ih =>
    intro off k line res h
    obtain ⟨e, ls⟩ := p
    cases k with
    | zero =>
      rw [publishedAt] at h
      rw [show runRounds gc ((e, ls) :: rest) off =
        test_bridges (withClock e fun i => gc (off + i)) ls ::
          runRounds gc rest (off + ls.length) from rfl,
        List.getElem?_cons_zero] at h
      cases ht : test_bridges (withClock e fun i => gc (off + i)) ls with
      | none => rw [ht] at h; exact absurd h (by simp)
      | some rc =>
        rw [ht] at h
        obtain ⟨r, c⟩ := rc
        have hres : tbResult (withClock e fun i => gc (off + i)) ls line =
            some res := by
          rw [tbResult, ht]
          exact h
        obtain ⟨t, ht1, ht2, ht3⟩ := tb_time_bound gc e off ls line res hres
        refine ⟨t, ?_, ?_, ht3⟩
        · rw [show sumLenTo ((e, ls) :: rest) 0 = 0 from rfl]
          omega
        · rw [show sumLenTo ((e, ls) :: rest) 1 =
            ls.length + sumLenTo rest 0 from rfl, sumLenTo_zero]
          omega
    | succ k =>
      have hstep : publishedAt gc ((e, ls) :: rest) off (k + 1) line =
          publishedAt gc rest (off + ls.length) k line := by
        rw [publishedAt, publishedAt]
        rw [show (runRounds gc ((e, ls) :: rest) off)[k + 1]? =
          (runRounds gc rest (off + ls.length))[k]? from ?_]
        rw [show runRounds gc ((e, ls) :: rest) off =
          test_bridges (withClock e fun i => gc (off + i)) ls ::
            runRounds gc rest (off + ls.length) from rfl]
        exact List.getElem?_cons_succ
      rw [hstep] at h
      obtain ⟨t, ht1, ht2, ht3⟩ := ih (off + ls.length) k line res h
      refine ⟨t, ?_, ?_, ht3⟩
      · rw [show sumLenTo ((e, ls) :: rest) (k + 1) =
          ls.length + sumLenTo rest k from rfl]
        omega
      · rw [show sumLenTo ((e, ls) :: rest) (k + 2) =
          ls.length + sumLenTo rest (k + 1) from rfl]
        omega

/-- C8: across the successive `test_bridges` rounds of the prober loop
(whose publications on the updates channel occur in round order), the
`last_tested` timestamp — sampled by `Utc::now()` at the start of each probe
task — never decreases for any bridge line, assuming the global clock is
monotone: every round's samples come after all samples of earlier rounds,
because `join_all` finishes a round before the next begins. -/
theorem claim8_thm (gc : Nat → Nat)
    (rounds : List (ProbeEnv × List String)) (off k m : Nat) (line : String)
    (r1 r2 : BridgeResult) (hmono : Monotone gc) (hkm : k < m)
    (h1 : publishedAt gc rounds off k line = some r1)
    (h2 : publishedAt gc rounds off m line = some r2) :
    r1.last_tested ≤ r2.last_tested := by
  obtain ⟨t1, ht11, ht12, ht13⟩ := publishedAt_time rounds off k line r1 h1
  obtain ⟨t2, ht21, ht22, ht23⟩ := publishedAt_time rounds off m line r2 h2
  have hs : sumLenTo rounds (k + 1) ≤ sumLenTo rounds m :=
    sumLenTo_mono rounds (k + 1) m (by omega)
  rw [ht13, ht23]
  exact hmono (by omega)

/-- C8 witness: probing `"b"` in two successive rounds under the identity
clock publishes timestamps 0 and then 1. -/
theorem claim8_witness :
    (⟨false, 0, some "e"⟩ : BridgeResult).last_tested ≤
      (⟨false, 1, some "e"⟩ : BridgeResult).last_tested :=
  claim8_thm id [(envC8, ["b"]), (envC8, ["b"])] 0 0 1 "b"
    ⟨false, 0, some "e"⟩ ⟨false, 1, some "e"⟩ monotone_id (by omega)
    (by decide) (by decide)

theorem mem_unionF (l : String) :
    ∀ bs : List (Finset String), l ∈ unionF bs ↔ ∃ b ∈ bs, l ∈ b := by
  intro bs
  induction bs with
  | nil => simp [unionF]
  | cons b bs ih =>
    rw [show unionF (b :: bs) = b ∪ unionF bs from rfl, Finset.mem_union, ih]
    simp

theorem watcher_inv (closing : String → Bool) (k : Nat) (s : SysState)
    (h : SysInv s) : SysInv (detect_bridges_going_down_step closing k s) := by
  intro l
  have hl := h l
  unfold occCount at hl ⊢
  simp only [detect_bridges_going_down_step]
  rw [List.countP_append, List.countP_cons, List.countP_nil]
  have htd : (s.qNow.countP fun b => decide (l ∈ b)) =
      ((s.qNow.take k).countP fun b => decide (l ∈ b)) +
        ((s.qNow.drop k).countP fun b => decide (l ∈ b)) := by
    conv_lhs => rw [← List.take_append_drop k s.qNow]
    rw [List.countP_append]
  rw [htd] at hl
  have hqiff : l ∈ unionF (s.qNow.take k) ↔
      0 < ((s.qNow.take k).countP fun b => decide (l ∈ b)) := by
    rw [mem_unionF, List.countP_pos_iff]
    simp
  have hA : (if l ∈ s.admitted then 1 else 0) ≤ 1 := by
    by_cases hadm : l ∈ s.admitted <;> simp [hadm]
  by_cases ho : l ∈ s.online <;> by_cases hcl : closing l = true <;>
    by_cases hq : l ∈ unionF (s.qNow.take k)
  all_goals
    try have hcpos : 0 < ((s.qNow.take k).countP fun b => decide (l ∈ b)) :=
      hqiff.mp hq
  all_goals
    try have hczero : ((s.qNow.take k).countP fun b => decide (l ∈ b)) = 0 :=
      Nat.eq_zero_of_not_pos fun hc => hq (hqiff.mpr hc)
  all_goals try rw [if_pos ho] at hl
  all_goals try rw [if_neg ho] at hl
  all_goals try simp [Finset.mem_union, Finset.mem_filter, ho, hcl, hq]
  all_goals omega

theorem fresh_not_admitted {newBs : List (Finset String)} {s : SysState}
    (hfresh : ∀ b ∈ newBs, ∀ l ∈ b, l ∉ s.admitted) {l : String}
    (hnb : l ∈ unionF newBs) : l ∉ s.admitted := by
  obtain ⟨b, hb, hlb⟩ := (mem_unionF l newBs).mp hnb
  exact hfresh b hb l hlb

theorem prober_inv (succ : String → Bool) (k : Nat)
    (newBs : List (Finset String)) (s : SysState)
    (hfresh : ∀ b ∈ newBs, ∀ l ∈ b, l ∉ s.admitted) (h : SysInv s) :
    SysInv (check_failed_bridges_step succ k newBs s) := by
  intro l
  have hl := h l
  unfold occCount at hl ⊢
  simp only [check_failed_bridges_step]
  rw [List.countP_append, List.countP_cons, List.countP_nil]
  have htd : (s.qOnce.countP fun b => decide (l ∈ b)) =
      ((s.qOnce.take k).countP fun b => decide (l ∈ b)) +
        ((s.qOnce.drop k).countP fun b => decide (l ∈ b)) := by
    conv_lhs => rw [← List.take_append_drop k s.qOnce]
    rw [List.countP_append]
  rw [htd] at hl
  have hqiff : l ∈ unionF (s.qOnce.take k) ↔
      0 < ((s.qOnce.take k).countP fun b => decide (l ∈ b)) := by
    rw [mem_unionF, List.countP_pos_iff]
    simp
  have hA : (if l ∈ s.admitted then 1 else 0) ≤ 1 := by
    by_cases hadm : l ∈ s.admitted <;> simp [hadm]
  by_cases hf : l ∈ s.failed <;> by_cases hsu : succ l = true <;>
    by_cases hq : l ∈ unionF (s.qOnce.take k) <;>
      by_cases hnb : l ∈ unionF newBs
  all_goals
    try have hcpos : 0 < ((s.qOnce.take k).countP fun b => decide (l ∈ b)) :=
      hqiff.mp hq
  all_goals
    try have hczero : ((s.qOnce.take k).countP fun b => decide (l ∈ b)) = 0 :=
      Nat.eq_zero_of_not_pos fun hc => hq (hqiff.mpr hc)
  all_goals
    try have hnadm : l ∉ s.admitted := fresh_not_admitted hfresh hnb
  all_goals try rw [if_pos hf] at hl
  all_goals try rw [if_neg hf] at hl
  all_goals try rw [if_neg hnadm] at hl
  all_goals
    try simp [Finset.mem_union, Finset.mem_filter, hf, hsu, hq, hnb, hnadm]
  all_goals
    try simp [Finset.mem_union, Finset.mem_filter, hf, hsu, hq, hnb]
  all_goals omega

/-- C2, amended: the claim as stated fails because a bridge can be in
flight on one of the two queues between the tasks, at which moment it is in
neither the watcher's channel map nor the prober's failed list
(`claim2_cex` reaches such a state in one watcher iteration).  What the two
cooperating loops do preserve, from any initial state satisfying it (as the
states built by `main_test`/`continuous_check` do, barring duplicate input
lines), is the four-way partition invariant `SysInv`: every admitted bridge
line is in exactly one of online, failed, a queued once-online batch, or a
queued now-online batch, and no unadmitted line is anywhere — in
particular, online and failed are disjoint in every reachable state. -/
theorem claim2_thm (s0 s : SysState) (hinv : SysInv s0)
    (hreach : SysReach s0 s) :
    SysInv s ∧ Disjoint s.online s.failed := by
  have hr : Relation.ReflTransGen SysStep s0 s := hreach
  have hs : SysInv s := by
    induction hr with
    | refl => exact hinv
    | tail hab hbc ih =>
      cases hbc with
      | watcher closing k t => exact watcher_inv closing k _ (ih hab)
      | prober succ k newBs t hfr =>
        exact prober_inv succ k newBs _ hfr (ih hab)
  refine ⟨hs, ?_⟩
  rw [Finset.disjoint_left]
  intro a hao haf
  have hA : (if a ∈ s.admitted then 1 else 0) ≤ 1 := by
    by_cases hadm : a ∈ s.admitted <;> simp [hadm]
  have ha := hs a
  unfold occCount at ha
  rw [if_pos hao, if_pos haf] at ha
  omega

theorem sC2_inv : SysInv sC2 := by
  intro l
  unfold occCount sC2
  by_cases hb : l = "b"
  · subst hb
    simp
  · simp [hb]

/-- C2 counterexample: from the legitimate state `sC2` (admitted = online =
the single bridge `"b"`, failed empty, invariant holds), one iteration of
the liveness watcher in which `"b"`'s channel reports closing reaches a
state where `"b"` is still admitted but sits in the once-online-now-failed
queue: it is in NEITHER the online map NOR the failed list, refuting
"every bridge ever admitted is in exactly one of the two". -/
theorem claim2_cex :
    SysInv sC2 ∧
      SysReach sC2 (detect_bridges_going_down_step (fun _ => true) 0 sC2) ∧
      "b" ∈ (detect_bridges_going_down_step (fun _ => true) 0 sC2).admitted ∧
      "b" ∉ (detect_bridges_going_down_step (fun _ => true) 0 sC2).online ∧
      "b" ∉ (detect_bridges_going_down_step (fun _ => true) 0 sC2).failed :=
  ⟨sC2_inv, Relation.ReflTransGen.single (SysStep.watcher _ _ _),
    by decide, by decide, by decide⟩

/-- C2 witness: the amended theorem applied to the concrete initial state
with the empty run. -/
theorem claim2_witness : Disjoint sC2.online sC2.failed :=
  (claim2_thm sC2 sC2 sC2_inv Relation.ReflTransGen.refl).2
